import Mathlib

/-!
Verification of the tolerant flattening/validation engine of
`CustomerDataExtractor` (src/data_loader.py).

The Python values flowing through the engine are modelled by the inductive
type `PyVal`.  Python floats are modelled exactly: a finite float is an
exact rational (the model ignores binary rounding and overflow of IEEE
doubles, which none of the verified properties depend on), and the
non-finite floats `nan`, `inf`, `-inf` are separate constructors, because
the engine uses `np.nan` as its "missing" marker and the builtin
`int(...)` raises on non-finite floats.
-/

/-- Model of a Python float: an exact rational, NaN, or a signed infinity. -/
inductive PyFloat where
  | finite (q : ℚ)
  | nan
  | inf (pos : Bool)
deriving DecidableEq

/-- Model of the Python values the engine manipulates.  `vOther` stands for
any object of a type the engine never inspects successfully (it has no
`.get`, is not `None`/numeric/text/list). -/
inductive PyVal where
  | vNone
  | vInt (n : Int)
  | vFloat (f : PyFloat)
  | vStr (s : String)
  | vList (xs : List PyVal)
  | vDict (kvs : List (String × PyVal))
  | vOther

/-- Python `dict.get(key, default)` on the association list of a `vDict`:
first binding wins (the model assumes distinct keys, as produced by a
pickled `dict`). -/
def dictLookup : List (String × PyVal) → String → Option PyVal
  | [], _ => none
  | (k, v) :: rest, key => if k = key then some v else dictLookup rest key

/-- Python `x.get(key, default)`: raises `AttributeError` (modelled as
`Except.error ()`) when `x` is not a dict. -/
def dictGet (x : PyVal) (key : String) (dflt : PyVal) : Except Unit PyVal :=
  match x with
  | .vDict kvs => .ok ((dictLookup kvs key).getD dflt)
  | _ => .error ()

/-- True exactly on the `vNone` constructor (Python `x is None`). -/
def PyVal.isNone : PyVal → Bool
  | .vNone => true
  | _ => false

/-- Python whitespace stripped by `str.strip()`. -/
def pyIsSpace (c : Char) : Bool :=
  c = ' ' || c = '\t' || c = '\n' || c = '\r' || c = '\x0b' || c = '\x0c'

/-- Python `str.strip()` on a character list. -/
def pyStrip (cs : List Char) : List Char :=
  ((cs.dropWhile pyIsSpace).reverse.dropWhile pyIsSpace).reverse

/-- Python `str.upper()` for the ASCII range (the inputs of interest are
ASCII; Unicode case mapping is out of scope). -/
def pyUpper (cs : List Char) : List Char := cs.map Char.toUpper

/-- decimal value of a list of digit characters (underscores, allowed by
Python numeric literals as group separators, are skipped). -/
def digitsVal (cs : List Char) : Nat :=
  (cs.filter (fun c => c ≠ '_')).foldl (fun a c => a * 10 + (c.toNat - 48)) 0

/-- number of actual digits in a digit group (underscores excluded). -/
def digitsCount (cs : List Char) : Nat :=
  (cs.filter (fun c => c ≠ '_')).length

/-- tail of a Python digit group: digits, with single underscores allowed
between digits. -/
def digitsTailOk : List Char → Bool
  | [] => true
  | c :: rest =>
    if c = '_' then
      match rest with
      | [] => false
      | d :: _ => d.isDigit && digitsTailOk rest
    else
      c.isDigit && digitsTailOk rest

/-- a nonempty Python digit group: `digit (underscore? digit)*`. -/
def isPyDigits (cs : List Char) : Bool :=
  match cs with
  | [] => false
  | c :: rest => c.isDigit && digitsTailOk rest

/-- an optional sign character, returning the sign and the remainder. -/
def parseSignChars : List Char → Int × List Char
  | '+' :: r => (1, r)
  | '-' :: r => (-1, r)
  | cs => (1, cs)

/-- split a character list at the first `e`/`E` (exponent marker). -/
def splitOnExp : List Char → List Char × Option (List Char)
  | [] => ([], none)
  | c :: rest =>
    if c = 'e' || c = 'E' then ([], some rest)
    else
      let (a, b) := splitOnExp rest
      (c :: a, b)

/-- split a character list at the first `.` (decimal point). -/
def splitOnDot : List Char → List Char × Option (List Char)
  | [] => ([], none)
  | c :: rest =>
    if c = '.' then ([], some rest)
    else
      let (a, b) := splitOnDot rest
      (c :: a, b)

/-- Python `int(str)` after stripping: optional sign followed by a digit
group, base 10; anything else raises `ValueError` (modelled as `none`). -/
def pyIntOfChars (cs0 : List Char) : Option Int :=
  let cs1 := pyStrip cs0
  let (sgn, cs) := parseSignChars cs1
  if isPyDigits cs then some (sgn * (digitsVal cs : Int)) else none

/-- Python `float(str)`: optional sign, then `inf`/`infinity`/`nan`
(case-insensitively) or a decimal literal `digits [. digits] [e sign
digits]` with at least one digit in the mantissa.  Failure (`ValueError`)
is modelled as `none`.  The numeric value is exact (no binary rounding). -/
def pyFloatOfChars (cs0 : List Char) : Option PyFloat :=
  let cs1 := pyStrip cs0
  let (sgn, cs) := parseSignChars cs1
  let low := cs.map Char.toLower
  if low = ['i', 'n', 'f'] || low = ['i', 'n', 'f', 'i', 'n', 'i', 't', 'y'] then
    some (.inf (sgn = 1))
  else if low = ['n', 'a', 'n'] then
    some .nan
  else
    let (mant, expPart) := splitOnExp cs
    let (ipart, fpartOpt) := splitOnDot mant
    let fpart := fpartOpt.getD []
    let mantOk := (ipart.isEmpty || isPyDigits ipart)
      && (fpart.isEmpty || isPyDigits fpart)
      && !(ipart.isEmpty && fpart.isEmpty)
    let expOk := match expPart with
      | none => true
      | some e => isPyDigits (parseSignChars e).2
    if mantOk && expOk then
      let expVal : Int := match expPart with
        | none => 0
        | some e => (parseSignChars e).1 * (digitsVal (parseSignChars e).2 : Int)
      some (.finite ((sgn : ℚ) * ((digitsVal ipart : ℚ)
        + (digitsVal fpart : ℚ) / (10 : ℚ) ^ (digitsCount fpart))
        * (10 : ℚ) ^ expVal))
    else
      none

/-- truncation toward zero, the behaviour of Python `int(float)` on finite
floats. -/
def ratTrunc (q : ℚ) : Int := if 0 ≤ q then ⌊q⌋ else ⌈q⌉

/-- Python `int(x)` as used on `cust_id`: succeeds on ints, finite floats
(truncating toward zero) and integer-looking strings; raises (error) on
everything else, including float NaN and infinities. -/
def pyToInt : PyVal → Except Unit Int
  | .vInt n => .ok n
  | .vFloat (.finite q) => .ok (ratTrunc q)
  | .vStr s =>
    match pyIntOfChars s.data with
    | some n => .ok n
    | none => .error ()
  | _ => .error ()

/-- Python `str(x)`.  Only the string case matters to the verified
properties; other values are given a simple printable form. -/
def pyToStr : PyVal → String
  | .vStr s => s
  | .vInt n => toString n
  | .vNone => "None"
  | _ => "object"

/-- value of the first contiguous run of digits in a character list
(`re.search` with a digit-run pattern), `none` when there is no digit. -/
def firstDigitRun : List Char → Option Nat
  | [] => none
  | c :: rest =>
    if c.isDigit then some (digitsVal (c :: rest.takeWhile Char.isDigit))
    else firstDigitRun rest

/-- `CustomerDataExtractor.extract_int_from_str` (src/data_loader.py
lines 25-35).  An int is returned as is; a float goes through `int(value)`
which truncates finite values toward zero and raises on NaN/infinities
(hence the `Except`); a string yields the first embedded digit run;
anything else yields `None`. -/
def extract_int_from_str : PyVal → Except Unit (Option Int)
  | .vInt n => .ok (some n)
  | .vFloat (.finite q) => .ok (some (ratTrunc q))
  | .vFloat _ => .error ()
  | .vStr s => .ok ((firstDigitRun s.data).map Int.ofNat)
  | _ => .ok none

/-- the sentinel words treated as an explicit zero by the coercers. -/
def sentinelWords : List (List Char) :=
  [['F', 'R', 'E', 'E'], [], ['I', 'N', 'V', 'A', 'L', 'I', 'D'], ['N', 'O', 'N', 'E']]

/-- `CustomerDataExtractor.parse_price` (src/data_loader.py lines 37-51).
`None` and unparsable values map to NaN (the missing marker); numbers map
to their float value; strings are cleaned of `$` and `,`, stripped, and
either match a sentinel word case-insensitively (explicit zero) or go
through `float(...)`. -/
def parse_price : PyVal → PyFloat
  | .vNone => .nan
  | .vInt n => .finite n
  | .vFloat f => f
  | .vStr s =>
    let cleaned := pyStrip ((s.data.filter (fun c => c ≠ '$')).filter (fun c => c ≠ ','))
    if pyUpper cleaned = ['F', 'R', 'E', 'E'] ∨ pyUpper cleaned = []
        ∨ pyUpper cleaned = ['I', 'N', 'V', 'A', 'L', 'I', 'D']
        ∨ pyUpper cleaned = ['N', 'O', 'N', 'E'] then
      .finite 0
    else
      (pyFloatOfChars cleaned).getD .nan
  | _ => .nan

/-- `CustomerDataExtractor.parse_quantity` (src/data_loader.py lines
53-69).  `None` and unparsable values map to NaN (`none`); an int is kept;
a finite float is truncated by `int(...)`, which raises on NaN and
infinities (the `Except` error); a string is stripped and uppercased only
(no `$`/`,` removal), then either matches a sentinel word or goes through
`int(...)` whose `ValueError` is caught. -/
def parse_quantity : PyVal → Except Unit (Option Int)
  | .vNone => .ok none
  | .vInt n => .ok (some n)
  | .vFloat (.finite q) => .ok (some (ratTrunc q))
  | .vFloat _ => .error ()
  | .vStr s =>
    let cleaned := pyUpper (pyStrip s.data)
    if cleaned = ['F', 'R', 'E', 'E'] ∨ cleaned = []
        ∨ cleaned = ['I', 'N', 'V', 'A', 'L', 'I', 'D']
        ∨ cleaned = ['N', 'O', 'N', 'E'] then
      .ok (some 0)
    else
      .ok (pyIntOfChars cleaned)
  | _ => .ok none

/-- Python float multiplication on the model: NaN propagates, signed
infinities multiply by sign, `inf * 0` is NaN. -/
def PyFloat.mul : PyFloat → PyFloat → PyFloat
  | .nan, _ => .nan
  | _, .nan => .nan
  | .finite a, .finite b => .finite (a * b)
  | .inf s, .finite b => if b = 0 then .nan else .inf (s = decide (0 < b))
  | .finite a, .inf s => if a = 0 then .nan else .inf (s = decide (0 < a))
  | .inf s, .inf t => .inf (s = t)

/-- Python float addition on the model: NaN propagates, opposite
infinities give NaN. -/
def PyFloat.add : PyFloat → PyFloat → PyFloat
  | .nan, _ => .nan
  | _, .nan => .nan
  | .finite a, .finite b => .finite (a + b)
  | .inf s, .finite _ => .inf s
  | .finite _, .inf s => .inf s
  | .inf s, .inf t => if s = t then .inf s else .nan

/-- Python float division as used for the percentage: NaN propagates,
`x / inf` is zero, `inf / inf` is NaN.  A zero divisor would raise in
Python; the engine only divides by a value checked to be `> 0`, so the
zero-divisor branch is unreachable and modelled as NaN. -/
def PyFloat.div : PyFloat → PyFloat → PyFloat
  | .nan, _ => .nan
  | _, .nan => .nan
  | .finite a, .finite b => if b = 0 then .nan else .finite (a / b)
  | .finite _, .inf _ => .finite 0
  | .inf s, .finite b => if b = 0 then .nan else .inf (s = decide (0 < b))
  | .inf _, .inf _ => .nan

/-- Python `x > 0` on a float: false for NaN and negative infinity. -/
def PyFloat.gtZero : PyFloat → Bool
  | .finite q => decide (0 < q)
  | .inf s => s
  | .nan => false

/-- Python `sum(...)` over a list of floats (left fold from integer 0,
promoted to float). -/
def PyFloat.sum (l : List PyFloat) : PyFloat := l.foldl PyFloat.add (.finite 0)

/-- round-half-to-even on an exact rational, the rounding mode of Python
`round`.  (On the exact-rational model of floats; the binary-representation
artefacts of IEEE rounding are out of scope.) -/
def roundHalfEven (x : ℚ) : Int :=
  let f := ⌊x⌋
  if x - f < 1/2 then f
  else if x - f > 1/2 then f + 1
  else if 2 ∣ f then f else f + 1

/-- Python `round(x, 2)` on the float model; NaN and infinities pass
through unchanged, as in Python. -/
def pyRound2 : PyFloat → PyFloat
  | .finite q => .finite ((roundHalfEven (q * 100) : ℚ) / 100)
  | x => x

/-- a calendar timestamp, modelled as a year plus a position inside the
year, ordered lexicographically.  This is all `validate_date` inspects:
the order relative to `now` and the `year` field. -/
structure Timestamp where
  year : Int
  sub : ℚ
deriving DecidableEq

/-- strict order on timestamps (lexicographic). -/
def tsLt (a b : Timestamp) : Prop :=
  a.year < b.year ∨ (a.year = b.year ∧ a.sub < b.sub)

instance (a b : Timestamp) : Decidable (tsLt a b) := by
  unfold tsLt; infer_instance

/-- `CustomerDataExtractor.validate_date` (src/data_loader.py lines
71-81).  `NaT` (modelled `none`) passes through; a parsed date strictly
after `now` or with year before 1900 is rejected to `NaT` (with a log
line, not modelled); otherwise the date is kept.  In the source `now` is
read from the clock at each call; the model passes the evaluation time
explicitly. -/
def validate_date (dt : Option Timestamp) (now : Timestamp) : Option Timestamp :=
  match dt with
  | none => none
  | some d =>
    if tsLt now d then none
    else if d.year < 1900 then none
    else some d

/-- one output row of the flattened table (src/data_loader.py lines
178-192 and 215-229).  Item-level fields are `Option`/NaN for the
placeholder row of a zero-item order. -/
structure Row where
  customer_id : Int
  customer_name : String
  registration_date : Option Timestamp
  is_vip : Bool
  order_id : Int
  order_date : Option Timestamp
  product_id : Option Int
  product_name : Option String
  category : Option String
  unit_price : PyFloat
  item_quantity : Option Int
  total_item_price : PyFloat
  total_order_value_percentage : PyFloat
deriving DecidableEq

/-- an entry of `skipped_customers`. -/
structure SkipCustomer where
  customer_id : PyVal
  reason : String

/-- an entry of `skipped_orders`. -/
structure SkipOrder where
  customer_id : PyVal
  order_raw_id : PyVal
  reason : String

/-- an entry of `skipped_items`. -/
structure SkipItem where
  customer_id : PyVal
  order_id : Int
  item_raw_id : PyVal
  reason : String

/-- the fixed category lookup table `CATEGORY_MAP`. -/
def CATEGORY_MAP : List (Int × String) :=
  [(1, "Electronics"), (2, "Apparel"), (3, "Books"), (4, "Home Goods")]

/-- `CATEGORY_MAP.get(raw_category, 'Misc')`: Python dict lookup equates
an int key with an equal float key, so an integral float also hits the
table; everything else falls back to `Misc`. -/
def categoryGet (v : PyVal) : String :=
  match v with
  | .vInt n => (CATEGORY_MAP.lookup n).getD "Misc"
  | .vFloat (.finite q) =>
    if q.den = 1 then (CATEGORY_MAP.lookup q.num).getD "Misc" else "Misc"
  | _ => "Misc"

/-- `cust_id in self.vip_customers`: membership of a Python value in a set
of ints, equating ints with equal integral floats. -/
def vipMember (v : PyVal) (vips : List Int) : Bool :=
  match v with
  | .vInt n => vips.contains n
  | .vFloat (.finite q) => q.den = 1 && vips.contains q.num
  | _ => false

/-- the quantity result promoted to a float for the order-total product
(`price * quantity` with `quantity` either an int or `np.nan`). -/
def qtyToPyFloat : Option Int → PyFloat
  | some n => .finite n
  | none => .nan

/-- the contribution of one raw item to `total_order_value`
(src/data_loader.py lines 163-174): `parse_price(price) *
parse_quantity(quantity)` with defaults `0.0` / `0` for absent keys;
any exception inside the loop body (a non-dict item, or `int(...)` on a
non-finite float quantity) is caught and contributes `0.0`; a coercion
that merely returns NaN is NOT an exception and contributes NaN. -/
def itemTotalContribution (item : PyVal) : PyFloat :=
  match (do
    let priceRaw ← dictGet item "price" (.vFloat (.finite 0))
    let qtyRaw ← dictGet item "quantity" (.vInt 0)
    let q ← parse_quantity qtyRaw
    pure (PyFloat.mul (parse_price priceRaw) (qtyToPyFloat q)) :
      Except Unit PyFloat) with
  | .ok x => x
  | .error _ => .finite 0

/-- `total_order_value` (src/data_loader.py line 174): the Python
`sum` of the per-item contributions. -/
def totalOrderValue (items : List PyVal) : PyFloat :=
  PyFloat.sum (items.map itemTotalContribution)

/-- the placeholder row emitted for a zero-item order
(src/data_loader.py lines 176-192): customer/order columns populated,
all item-level columns null/NaN. -/
def placeholderRow (ci : Int) (cname : String) (reg : Option Timestamp)
    (vip : Bool) (oid : Int) (odate : Option Timestamp) : Row :=
  { customer_id := ci
    customer_name := cname
    registration_date := reg
    is_vip := vip
    order_id := oid
    order_date := odate
    product_id := none
    product_name := none
    category := none
    unit_price := .nan
    item_quantity := none
    total_item_price := .nan
    total_order_value_percentage := .nan }

/-- processing of a single item of a surviving order (src/data_loader.py
lines 194-229): resolve the product id by digit extraction, require name,
price and quantity to coerce, else append an item-level skip; on success
emit a fully populated row.  `extract_int_from_str`, `parse_quantity` and
`int(cust_id)` can raise, which aborts the whole flattening (the
`Except.error`). -/
def processItem (cid cname : PyVal) (reg : Option Timestamp) (vip : Bool)
    (oid : Int) (odate : Option Timestamp) (total : PyFloat) (item : PyVal) :
    Except Unit (Sum Row SkipItem) :=
  match dictGet item "item_id" .vNone with
  | .error e => .error e
  | .ok rawPid =>
  match extract_int_from_str rawPid with
  | .error e => .error e
  | .ok pidOpt =>
  match dictGet item "product_name" .vNone with
  | .error e => .error e
  | .ok pname =>
  match dictGet item "category" .vNone with
  | .error e => .error e
  | .ok rawCat =>
  match dictGet item "price" (.vFloat .nan) with
  | .error e => .error e
  | .ok priceRaw =>
  match dictGet item "quantity" (.vFloat .nan) with
  | .error e => .error e
  | .ok qtyRaw =>
  match parse_quantity qtyRaw with
  | .error e => .error e
  | .ok qtyOpt =>
    match pidOpt, qtyOpt with
    | some pid, some n =>
      if pname.isNone ∨ parse_price priceRaw = .nan then
        .ok (.inr ⟨cid, oid, rawPid, "Missing critical item info"⟩)
      else
        match pyToInt cid with
        | .error e => .error e
        | .ok ci =>
          let unitPrice := parse_price priceRaw
          let totalItemPrice := PyFloat.mul unitPrice (.finite n)
          let pct := if total.gtZero then
              PyFloat.mul (PyFloat.div totalItemPrice total) (.finite 100)
            else .nan
          .ok (.inl
            { customer_id := ci
              customer_name := pyToStr cname
              registration_date := reg
              is_vip := vip
              order_id := oid
              order_date := odate
              product_id := some pid
              product_name := some (pyToStr pname)
              category := some (categoryGet rawCat)
              unit_price := pyRound2 unitPrice
              item_quantity := some n
              total_item_price := pyRound2 totalItemPrice
              total_order_value_percentage := pyRound2 pct })
    | _, _ => .ok (.inr ⟨cid, oid, rawPid, "Missing critical item info"⟩)

/-- the item loop of a surviving order: one row or one item skip per
item, in source order. -/
def processItems (cid cname : PyVal) (reg : Option Timestamp) (vip : Bool)
    (oid : Int) (odate : Option Timestamp) (total : PyFloat) :
    List PyVal → Except Unit (List Row × List SkipItem)
  | [] => .ok ([], [])
  | it :: rest =>
    match processItem cid cname reg vip oid odate total it with
    | .error e => .error e
    | .ok o =>
      match processItems cid cname reg vip oid odate total rest with
      | .error e => .error e
      | .ok (rs, sks) =>
        match o with
        | .inl r => .ok (r :: rs, sks)
        | .inr s => .ok (rs, s :: sks)

/-- the coerced items list of an order (src/data_loader.py lines
158-161): the `items` field when it is a list, otherwise (absent or
malformed) the empty list. -/
def itemsOf (order : PyVal) : List PyVal :=
  match order with
  | .vDict kvs =>
    match dictLookup kvs "items" with
    | some (.vList xs) => xs
    | some _ => []
    | none => []
  | _ => []

/-- processing of one order of a surviving customer (src/data_loader.py
lines 140-229): resolve the order id by digit extraction and require a raw
date, else append an order-level skip; sanitize the order date; coerce the
items field; compute the order total; emit either the placeholder row
(zero items) or one row/skip per item. -/
def processOrder (cid cname : PyVal) (reg : Option Timestamp) (vip : Bool)
    (parseDate : PyVal → Option Timestamp) (now : Timestamp) (order : PyVal) :
    Except Unit (List Row × List SkipOrder × List SkipItem) :=
  match dictGet order "order_id" .vNone with
  | .error e => .error e
  | .ok rawOid =>
  match extract_int_from_str rawOid with
  | .error e => .error e
  | .ok oidOpt =>
  match dictGet order "order_date" .vNone with
  | .error e => .error e
  | .ok odraw =>
  match oidOpt, odraw.isNone with
  | none, _ =>
    .ok ([], [⟨cid, rawOid, "Missing or invalid order_id or order_date"⟩], [])
  | some _, true =>
    .ok ([], [⟨cid, rawOid, "Missing or invalid order_id or order_date"⟩], [])
  | some oid, false =>
    let odate := validate_date (parseDate odraw) now
    match dictGet order "items" (.vList []) with
    | .error e => .error e
    | .ok itemsRaw =>
      let items := match itemsRaw with | .vList xs => xs | _ => []
      let total := totalOrderValue items
      match items with
      | [] =>
        match pyToInt cid with
        | .error e => .error e
        | .ok ci =>
          .ok ([placeholderRow ci (pyToStr cname) reg vip oid odate], [], [])
      | _ :: _ =>
        match processItems cid cname reg vip oid odate total items with
        | .error e => .error e
        | .ok (rs, sks) => .ok (rs, [], sks)

/-- the order loop of a surviving customer, appending rows and skip
records in source order. -/
def processOrders (cid cname : PyVal) (reg : Option Timestamp) (vip : Bool)
    (parseDate : PyVal → Option Timestamp) (now : Timestamp) :
    List PyVal → Except Unit (List Row × List SkipOrder × List SkipItem)
  | [] => .ok ([], [], [])
  | o :: rest =>
    match processOrder cid cname reg vip parseDate now o with
    | .error e => .error e
    | .ok (r1, s1, i1) =>
      match processOrders cid cname reg vip parseDate now rest with
      | .error e => .error e
      | .ok (r2, s2, i2) => .ok (r1 ++ r2, s1 ++ s2, i1 ++ i2)

/-- the accumulated result of the flattening: the row list and the three
skip logs. -/
structure FlatResult where
  rows : List Row
  skippedCustomers : List SkipCustomer
  skippedOrders : List SkipOrder
  skippedItems : List SkipItem

/-- processing of one source customer (src/data_loader.py lines
109-229): require id, name and registration date, and a list-typed orders
field, else a customer-level skip; sanitize the registration date; resolve
VIP membership; then process each order.  `parseDate` stands for
`pd.to_datetime` with its exception handler (unparsable dates become
`NaT`/`none`). -/
def processCustomer (vips : List Int) (parseDate : PyVal → Option Timestamp)
    (now : Timestamp) (cust : PyVal) : Except Unit FlatResult :=
  match dictGet cust "id" .vNone with
  | .error e => .error e
  | .ok cid =>
  if cid.isNone then
    .ok ⟨[], [⟨.vNone, "Missing customer ID"⟩], [], []⟩
  else
  match dictGet cust "name" .vNone with
  | .error e => .error e
  | .ok cname =>
  match dictGet cust "registration_date" .vNone with
  | .error e => .error e
  | .ok regRaw =>
  if cname.isNone ∨ regRaw.isNone then
    .ok ⟨[], [⟨cid, "Missing name or registration_date"⟩], [], []⟩
  else
    let reg := validate_date (parseDate regRaw) now
    let vip := vipMember cid vips
    match dictGet cust "orders" (.vList []) with
    | .error e => .error e
    | .ok ordersRaw =>
      match ordersRaw with
      | .vList orders =>
        match processOrders cid cname reg vip parseDate now orders with
        | .error e => .error e
        | .ok (rs, sko, ski) => .ok ⟨rs, [], sko, ski⟩
      | _ => .ok ⟨[], [⟨cid, "Malformed orders field"⟩], [], []⟩

/-- the customer loop: every customer contributes rows and skip records,
appended in source order. -/
def processCustomers (vips : List Int) (parseDate : PyVal → Option Timestamp)
    (now : Timestamp) : List PyVal → Except Unit FlatResult
  | [] => .ok ⟨[], [], [], []⟩
  | c :: rest =>
    match processCustomer vips parseDate now c with
    | .error e => .error e
    | .ok r1 =>
      match processCustomers vips parseDate now rest with
      | .error e => .error e
      | .ok r2 =>
        .ok ⟨r1.rows ++ r2.rows,
             r1.skippedCustomers ++ r2.skippedCustomers,
             r1.skippedOrders ++ r2.skippedOrders,
             r1.skippedItems ++ r2.skippedItems⟩

/-- rank used by the final sort for the `product_id` column: pandas
`sort_values` places missing keys last (`na_position` default), so a null
product id ranks after every integer. -/
def pidRank (p : Option Int) : Int :=
  match p with
  | none => 1
  | some _ => 0

/-- the integer sort value of a product id (irrelevant for nulls). -/
def pidVal (p : Option Int) : Int :=
  match p with
  | none => 0
  | some n => n

/-- the composite sort key of a row: `(customer_id, order_id, product_id)`
with nulls last. -/
def rowKey (r : Row) : Int × Int × Int × Int :=
  (r.customer_id, r.order_id, pidRank r.product_id, pidVal r.product_id)

/-- lexicographic comparison of sort keys. -/
def keyLe (p q : Int × Int × Int × Int) : Bool :=
  decide (p.1 < q.1) ||
  (decide (p.1 = q.1) &&
    (decide (p.2.1 < q.2.1) ||
      (decide (p.2.1 = q.2.1) &&
        (decide (p.2.2.1 < q.2.2.1) ||
          (decide (p.2.2.1 = q.2.2.1) && decide (p.2.2.2 ≤ q.2.2.2))))))

/-- row comparison for the final sort. -/
def rowLe (a b : Row) : Bool := keyLe (rowKey a) (rowKey b)

/-- insertion into a sorted row list (stable: an incoming row goes before
the first row it compares less-or-equal to). -/
def insertRow (r : Row) : List Row → List Row
  | [] => [r]
  | x :: xs => if rowLe r x then r :: x :: xs else x :: insertRow r xs

/-- the final sort by `(customer_id, order_id, product_id)` ascending with
nulls last (src/data_loader.py line 254), modelled as a stable insertion
sort; the claims only depend on sortedness, not on the tie order. -/
def sortRows : List Row → List Row
  | [] => []
  | r :: rs => insertRow r (sortRows rs)

/-- `CustomerDataExtractor.flatten_data` (src/data_loader.py lines
106-256): the customer loop followed by the final sort.  An uncaught
exception anywhere inside the loops aborts the whole call
(`Except.error`). -/
def flatten_data (vips : List Int) (parseDate : PyVal → Option Timestamp)
    (now : Timestamp) (customers : List PyVal) : Except Unit FlatResult :=
  match processCustomers vips parseDate now customers with
  | .error e => .error e
  | .ok res => .ok ⟨sortRows res.rows, res.skippedCustomers,
      res.skippedOrders, res.skippedItems⟩

/-- the `total_orders` aggregate of `generate_summary_report`
(src/data_loader.py line 293): the sum of `len(cust.get('orders', []))`
over all source customers whose `orders` field is a list (absent fields
default to the empty list); `.get` on a non-dict raises. -/
def reportTotalOrders : List PyVal → Except Unit Nat
  | [] => .ok 0
  | c :: rest =>
    match dictGet c "orders" (.vList []) with
    | .error e => .error e
    | .ok o =>
      match reportTotalOrders rest with
      | .error e => .error e
      | .ok n =>
        .ok ((match o with | .vList xs => xs.length | _ => 0) + n)

/-- the rows of a flattening result, empty on a crash (used to state
concrete evaluations). -/
def resultRows (x : Except Unit FlatResult) : List Row :=
  match x with
  | .ok r => r.rows
  | .error _ => []

/-- Spec-side rendering of the `parse_price` contract, written from the
words of the specification: missing input is missing (not zero); numeric
input keeps its float value; text is cleaned of the currency symbol and
thousands separators and trimmed, a sentinel word is an explicit zero, and
anything else is parsed as a number with failure falling back to missing
(values of kinds the spec does not enumerate coerce to missing). -/
def parsePriceSpec : PyVal → PyFloat
  | .vNone => .nan
  | .vInt n => .finite n
  | .vFloat f => f
  | .vStr s =>
    let cleaned := pyStrip ((s.data.filter (fun c => c ≠ '$')).filter (fun c => c ≠ ','))
    if sentinelWords.contains (pyUpper cleaned) then .finite 0
    else
      match pyFloatOfChars cleaned with
      | some f => f
      | none => .nan
  | _ => .nan

/-- Spec-side rendering of the `parse_quantity` contract AS CLAIMED:
"text input is cleaned the same way as for price (currency symbol and
thousands separators stripped, whitespace trimmed)", sentinels mapping to
integer zero, other text parsed as an integer.  The claim is compared
against the source `parse_quantity`, which does NOT strip `$` or `,`. -/
def parseQuantityClaimed : PyVal → Except Unit (Option Int)
  | .vNone => .ok none
  | .vInt n => .ok (some n)
  | .vFloat (.finite q) => .ok (some (ratTrunc q))
  | .vFloat _ => .ok none
  | .vStr s =>
    let cleaned := pyStrip ((s.data.filter (fun c => c ≠ '$')).filter (fun c => c ≠ ','))
    if sentinelWords.contains (pyUpper cleaned) then .ok (some 0)
    else .ok (pyIntOfChars (pyUpper cleaned))
  | _ => .ok none

/-- Spec-side rendering of the amended `parse_quantity` contract: text is
only whitespace-trimmed and uppercased (no currency or separator
stripping) before the sentinel check and the integer parse; a non-finite
float input raises. -/
def parseQuantityAmended : PyVal → Except Unit (Option Int)
  | .vNone => .ok none
  | .vInt n => .ok (some n)
  | .vFloat (.finite q) => .ok (some (if 0 ≤ q then ⌊q⌋ else ⌈q⌉))
  | .vFloat _ => .error ()
  | .vStr s =>
    let cleaned := pyUpper (pyStrip s.data)
    if sentinelWords.contains cleaned then .ok (some 0)
    else .ok (pyIntOfChars cleaned)
  | _ => .ok none

/-- the price the order-total loop coerces for an item: the value of the
`price` key (default `0.0`), through `parse_price`. -/
def itemPriceOf (item : PyVal) : PyFloat :=
  parse_price (match item with
    | .vDict kvs => (dictLookup kvs "price").getD (.vFloat (.finite 0))
    | _ => .vFloat (.finite 0))

/-- the quantity the order-total loop coerces for an item: the value of
the `quantity` key (default `0`), through `parse_quantity`. -/
def itemQtyOf (item : PyVal) : Except Unit (Option Int) :=
  parse_quantity (match item with
    | .vDict kvs => (dictLookup kvs "quantity").getD (.vInt 0)
    | _ => .vInt 0)

/-- Spec-side rendering of the CLAIMED order total: the sum over items of
`parse_price(price) * parse_quantity(quantity)` in which any item whose
price or quantity fails coercion contributes exactly zero. -/
def claimedTotalOrderValue (items : List PyVal) : ℚ :=
  (items.map (fun it =>
    match itemPriceOf it, itemQtyOf it with
    | .finite q, .ok (some n) => q * n
    | _, _ => 0)).sum

/-- the order-list length a customer contributes to the report total when
its `orders` field is a list (absent defaulting to empty); non-list orders
fields and non-dict customers contribute nothing. -/
def orderListLen (c : PyVal) : Nat :=
  match c with
  | .vDict kvs =>
    match (dictLookup kvs "orders").getD (.vList []) with
    | .vList xs => xs.length
    | _ => 0
  | _ => 0

/-- Spec-side rendering of the CLAIMED report total of orders: the sum of
per-customer order-list lengths, excluding customers skipped at the
customer level (missing id, missing name or registration date, malformed
orders field). -/
def claimedTotalOrders (customers : List PyVal) : Nat :=
  (customers.map (fun c =>
    match c with
    | .vDict kvs =>
      if ((dictLookup kvs "id").getD .vNone).isNone
          ∨ ((dictLookup kvs "name").getD .vNone).isNone
          ∨ ((dictLookup kvs "registration_date").getD .vNone).isNone then 0
      else
        match (dictLookup kvs "orders").getD (.vList []) with
        | .vList xs => xs.length
        | _ => 0
    | _ => 0)).sum

/-- the finite value of a float of the model, zero for NaN/infinities. -/
def PyFloat.toQ : PyFloat → ℚ
  | .finite q => q
  | _ => 0

/-- shape invariant of every row the item loop emits: a non-placeholder
row carries some pre-rounding price `p` and quantity `n` with
`unit_price = round(p, 2)` and `total_item_price = round(p * n, 2)`. -/
def RowShape (r : Row) : Prop :=
  r.product_id = none ∨ ∃ p n, r.item_quantity = some n ∧ r.unit_price = pyRound2 p ∧
    r.total_item_price = pyRound2 (PyFloat.mul p (.finite n))

theorem mem_sentinelWords (cs : List Char) :
    cs ∈ sentinelWords ↔ (cs = ['F', 'R', 'E', 'E'] ∨ cs = [] ∨
      cs = ['I', 'N', 'V', 'A', 'L', 'I', 'D'] ∨ cs = ['N', 'O', 'N', 'E']) := by
  simp [sentinelWords]

theorem processItem_ok_inl {cid cname reg vip oid odate total item r}
    (h : processItem cid cname reg vip oid odate total item = .ok (.inl r)) :
    r.registration_date = reg ∧ r.product_id ≠ none ∧
      ∃ p n, r.item_quantity = some n ∧ r.unit_price = pyRound2 p ∧
        r.total_item_price = pyRound2 (PyFloat.mul p (.finite n)) := by
  unfold processItem at h
  split at h
  · exact Except.noConfusion h
  split at h
  · exact Except.noConfusion h
  split at h
  · exact Except.noConfusion h
  split at h
  · exact Except.noConfusion h
  split at h
  · exact Except.noConfusion h
  split at h
  · exact Except.noConfusion h
  split at h
  · exact Except.noConfusion h
  split at h
  case _ pid n =>
    split at h
    · simp at h
    · split at h
      · exact Except.noConfusion h
      · simp only [Except.ok.injEq, Sum.inl.injEq] at h
        subst h
        exact ⟨rfl, by simp, _, _, rfl, rfl, rfl⟩
  case _ => simp at h

theorem processItems_ok {cid cname reg vip oid odate total items rs sks}
    (h : processItems cid cname reg vip oid odate total items = .ok (rs, sks)) :
    (∀ r ∈ rs, ∃ it, processItem cid cname reg vip oid odate total it = .ok (.inl r)) ∧
      rs.length + sks.length = items.length := by
  induction items generalizing rs sks with
  | nil =>
    simp only [processItems, Except.ok.injEq, Prod.mk.injEq] at h
    obtain ⟨h1, h2⟩ := h
    subst h1; subst h2
    simp
  | cons it rest ih =>
    unfold processItems at h
    cases hit : processItem cid cname reg vip oid odate total it with
    | error e => simp only [hit] at h; exact Except.noConfusion h
    | ok o =>
      simp only [hit] at h
      cases hrest : processItems cid cname reg vip oid odate total rest with
      | error e => simp only [hrest] at h; exact Except.noConfusion h
      | ok pr =>
        obtain ⟨rs2, sks2⟩ := pr
        simp only [hrest] at h
        obtain ⟨ihm, ihl⟩ := ih hrest
        cases o with
        | inl r0 =>
          simp only [Except.ok.injEq, Prod.mk.injEq] at h
          obtain ⟨h1, h2⟩ := h
          subst h1; subst h2
          constructor
          · intro r hr
            rcases List.mem_cons.mp hr with h | h
            · subst h; exact ⟨it, hit⟩
            · exact ihm r h
          · simp only [List.length_cons]; omega
        | inr s0 =>
          simp only [Except.ok.injEq, Prod.mk.injEq] at h
          obtain ⟨h1, h2⟩ := h
          subst h1; subst h2
          refine ⟨ihm, ?_⟩
          simp only [List.length_cons]; omega

theorem processOrder_rows {cid cname reg vip parseDate now order rs sko ski}
    (h : processOrder cid cname reg vip parseDate now order = .ok (rs, sko, ski)) :
    ∀ r ∈ rs, r.registration_date = reg ∧ RowShape r := by
  unfold processOrder at h
  cases h1 : dictGet order "order_id" .vNone with
  | error e => simp only [h1] at h; exact Except.noConfusion h
  | ok rawOid =>
  simp only [h1] at h
  cases h2 : extract_int_from_str rawOid with
  | error e => simp only [h2] at h; exact Except.noConfusion h
  | ok oidOpt =>
  simp only [h2] at h
  cases h3 : dictGet order "order_date" .vNone with
  | error e => simp only [h3] at h; exact Except.noConfusion h
  | ok odraw =>
  simp only [h3] at h
  cases oidOpt with
  | none =>
    simp only [Except.ok.injEq, Prod.mk.injEq] at h
    obtain ⟨hrs, _, _⟩ := h
    subst hrs; intro r hr; exact absurd hr (List.not_mem_nil r)
  | some oid =>
  cases h4 : odraw.isNone with
  | true =>
    simp only [h4, Except.ok.injEq, Prod.mk.injEq] at h
    obtain ⟨hrs, _, _⟩ := h
    subst hrs; intro r hr; exact absurd hr (List.not_mem_nil r)
  | false =>
  simp only [h4] at h
  cases h5 : dictGet order "items" (.vList []) with
  | error e => simp only [h5] at h; exact Except.noConfusion h
  | ok itemsRaw =>
  simp only [h5] at h
  cases h6 : (match itemsRaw with | PyVal.vList xs => xs | _ => ([] : List PyVal)) with
  | nil =>
    simp only [h6] at h
    cases h7 : pyToInt cid with
    | error e => simp only [h7] at h; exact Except.noConfusion h
    | ok ci =>
      simp only [h7, Except.ok.injEq, Prod.mk.injEq] at h
      obtain ⟨hrs, _, _⟩ := h
      subst hrs
      intro r hr
      rcases List.mem_singleton.mp hr with h
      subst h
      exact ⟨rfl, Or.inl rfl⟩
  | cons it rest =>
    simp only [h6] at h
    cases h8 : processItems cid cname reg vip oid (validate_date (parseDate odraw) now)
        (totalOrderValue (it :: rest)) (it :: rest) with
    | error e => simp only [h8] at h; exact Except.noConfusion h
    | ok pr =>
      obtain ⟨rs2, sks2⟩ := pr
      simp only [h8, Except.ok.injEq, Prod.mk.injEq] at h
      obtain ⟨hrs, _, _⟩ := h
      subst hrs
      intro r hr
      obtain ⟨itx, hitx⟩ := (processItems_ok h8).1 r hr
      obtain ⟨hreg, hpid, p, n, hq, hu, ht⟩ := processItem_ok_inl hitx
      exact ⟨hreg, Or.inr ⟨p, n, hq, hu, ht⟩⟩

theorem processOrders_rows {cid cname reg vip parseDate now orders rs sko ski}
    (h : processOrders cid cname reg vip parseDate now orders = .ok (rs, sko, ski)) :
    ∀ r ∈ rs, r.registration_date = reg ∧ RowShape r := by
  induction orders generalizing rs sko ski with
  | nil =>
    simp only [processOrders, Except.ok.injEq, Prod.mk.injEq] at h
    obtain ⟨hrs, _, _⟩ := h
    subst hrs; intro r hr; exact absurd hr (List.not_mem_nil r)
  | cons o rest ih =>
    unfold processOrders at h
    cases h1 : processOrder cid cname reg vip parseDate now o with
    | error e => simp only [h1] at h; exact Except.noConfusion h
    | ok t1 =>
      obtain ⟨r1, s1, i1⟩ := t1
      simp only [h1] at h
      cases h2 : processOrders cid cname reg vip parseDate now rest with
      | error e => simp only [h2] at h; exact Except.noConfusion h
      | ok t2 =>
        obtain ⟨r2, s2, i2⟩ := t2
        simp only [h2, Except.ok.injEq, Prod.mk.injEq] at h
        obtain ⟨hrs, _, _⟩ := h
        subst hrs
        intro r hr
        rcases List.mem_append.mp hr with hm | hm
        · exact processOrder_rows h1 r hm
        · exact ih h2 r hm

theorem processCustomer_rows {vips parseDate now cust res}
    (h : processCustomer vips parseDate now cust = .ok res) :
    ∀ r ∈ res.rows, RowShape r := by
  unfold processCustomer at h
  cases h1 : dictGet cust "id" .vNone with
  | error e => simp only [h1] at h; exact Except.noConfusion h
  | ok cid =>
  simp only [h1] at h
  by_cases h2 : cid.isNone = true
  · simp only [h2, if_pos] at h
    simp only [Except.ok.injEq] at h
    subst h
    intro r hr; exact absurd hr (List.not_mem_nil r)
  · simp only [eq_false_of_ne_true h2, Bool.false_eq_true, if_false] at h
    cases h3 : dictGet cust "name" .vNone with
    | error e => simp only [h3] at h; exact Except.noConfusion h
    | ok cname =>
    simp only [h3] at h
    cases h4 : dictGet cust "registration_date" .vNone with
    | error e => simp only [h4] at h; exact Except.noConfusion h
    | ok regRaw =>
    simp only [h4] at h
    split at h
    · simp only [Except.ok.injEq] at h
      subst h
      intro r hr; exact absurd hr (List.not_mem_nil r)
    · cases h5 : dictGet cust "orders" (.vList []) with
      | error e => simp only [h5] at h; exact Except.noConfusion h
      | ok ordersRaw =>
      simp only [h5] at h
      cases ordersRaw with
      | vList orders =>
        cases h6 : processOrders cid cname (validate_date (parseDate regRaw) now)
            (vipMember cid vips) parseDate now orders with
        | error e => simp only [h6] at h; exact Except.noConfusion h
        | ok t =>
          obtain ⟨rs, sko, ski⟩ := t
          simp only [h6, Except.ok.injEq] at h
          subst h
          intro r hr
          exact (processOrders_rows h6 r hr).2
      | vNone => simp only [Except.ok.injEq] at h; subst h; intro r hr; exact absurd hr (List.not_mem_nil r)
      | vInt n => simp only [Except.ok.injEq] at h; subst h; intro r hr; exact absurd hr (List.not_mem_nil r)
      | vFloat f => simp only [Except.ok.injEq] at h; subst h; intro r hr; exact absurd hr (List.not_mem_nil r)
      | vStr s => simp only [Except.ok.injEq] at h; subst h; intro r hr; exact absurd hr (List.not_mem_nil r)
      | vDict kvs => simp only [Except.ok.injEq] at h; subst h; intro r hr; exact absurd hr (List.not_mem_nil r)
      | vOther => simp only [Except.ok.injEq] at h; subst h; intro r hr; exact absurd hr (List.not_mem_nil r)

theorem processCustomers_rows {vips parseDate now customers res}
    (h : processCustomers vips parseDate now customers = .ok res) :
    ∀ r ∈ res.rows, RowShape r := by
  induction customers generalizing res with
  | nil =>
    simp only [processCustomers, Except.ok.injEq] at h
    subst h
    intro r hr; exact absurd hr (List.not_mem_nil r)
  | cons c rest ih =>
    unfold processCustomers at h
    cases h1 : processCustomer vips parseDate now c with
    | error e => simp only [h1] at h; exact Except.noConfusion h
    | ok r1 =>
      simp only [h1] at h
      cases h2 : processCustomers vips parseDate now rest with
      | error e => simp only [h2] at h; exact Except.noConfusion h
      | ok r2 =>
        simp only [h2, Except.ok.injEq] at h
        subst h
        intro r hr
        rcases List.mem_append.mp hr with hm | hm
        · exact processCustomer_rows h1 r hm
        · exact ih h2 r hm

theorem keyLe_trans {p q t : Int × Int × Int × Int}
    (h1 : keyLe p q = true) (h2 : keyLe q t = true) : keyLe p t = true := by
  simp only [keyLe, Bool.or_eq_true, Bool.and_eq_true, decide_eq_true_eq] at h1 h2 ⊢
  omega

theorem keyLe_total (p q : Int × Int × Int × Int) :
    keyLe p q = true ∨ keyLe q p = true := by
  simp only [keyLe, Bool.or_eq_true, Bool.and_eq_true, decide_eq_true_eq]
  omega

theorem rowLe_trans {a b c : Row} (h1 : rowLe a b = true) (h2 : rowLe b c = true) :
    rowLe a c = true := keyLe_trans h1 h2

theorem rowLe_total (a b : Row) : rowLe a b = true ∨ rowLe b a = true :=
  keyLe_total (rowKey a) (rowKey b)

theorem mem_insertRow {r x : Row} : ∀ {l : List Row}, x ∈ insertRow r l ↔ x = r ∨ x ∈ l := by
  intro l
  induction l with
  | nil => simp [insertRow]
  | cons y ys ih =>
    unfold insertRow
    split
    · simp [List.mem_cons]
    · simp only [List.mem_cons, ih]
      tauto

theorem pairwise_insertRow {r : Row} {l : List Row}
    (h : l.Pairwise (fun a b => rowLe a b = true)) :
    (insertRow r l).Pairwise (fun a b => rowLe a b = true) := by
  induction l with
  | nil => simp [insertRow]
  | cons y ys ih =>
    unfold insertRow
    split
    case isTrue hle =>
      refine List.Pairwise.cons ?_ h
      intro b hb
      rcases List.mem_cons.mp hb with hb | hb
      · subst hb; exact hle
      · exact rowLe_trans hle (List.rel_of_pairwise_cons h hb)
    case isFalse hle =>
      have hyr : rowLe y r = true := by
        rcases rowLe_total r y with ht | ht
        · exact absurd ht hle
        · exact ht
      refine List.Pairwise.cons ?_ (ih (List.Pairwise.sublist (List.sublist_cons_self y ys) h))
      intro b hb
      rcases mem_insertRow.mp hb with hb | hb
      · subst hb; exact hyr
      · exact List.rel_of_pairwise_cons h hb

theorem pairwise_sortRows (l : List Row) :
    (sortRows l).Pairwise (fun a b => rowLe a b = true) := by
  induction l with
  | nil => simp [sortRows]
  | cons r rs ih => exact pairwise_insertRow ih

theorem mem_sortRows {x : Row} : ∀ {l : List Row}, x ∈ sortRows l ↔ x ∈ l := by
  intro l
  induction l with
  | nil => simp [sortRows]
  | cons r rs ih =>
    unfold sortRows
    rw [mem_insertRow, ih]
    simp [List.mem_cons]

theorem flatten_rows_shape {vips parseDate now customers res}
    (h : flatten_data vips parseDate now customers = .ok res) :
    ∀ r ∈ res.rows, RowShape r := by
  unfold flatten_data at h
  cases h1 : processCustomers vips parseDate now customers with
  | error e => simp only [h1] at h; exact Except.noConfusion h
  | ok res0 =>
    simp only [h1, Except.ok.injEq] at h
    subst h
    intro r hr
    exact processCustomers_rows h1 r (mem_sortRows.mp hr)

theorem dictGet_ok_isDict {x : PyVal} {k : String} {d v : PyVal}
    (h : dictGet x k d = .ok v) : ∃ kvs, x = .vDict kvs := by
  cases x <;> simp [dictGet] at h ⊢

theorem items_coerce_eq (kvs : List (String × PyVal)) :
    (match (dictLookup kvs "items").getD (.vList []) with
      | PyVal.vList xs => xs
      | _ => []) = itemsOf (.vDict kvs) := by
  unfold itemsOf
  cases hl : dictLookup kvs "items" with
  | none => simp [hl]
  | some v => cases v <;> simp [hl]

theorem PyFloat.add_nan : ∀ x : PyFloat, PyFloat.add x .nan = .nan := by
  intro x; cases x <;> rfl

theorem foldl_add_nan : ∀ l : List PyFloat, l.foldl PyFloat.add .nan = .nan := by
  intro l
  induction l with
  | nil => rfl
  | cons x xs ih => simp only [List.foldl_cons, PyFloat.add, ih]

theorem foldl_add_mem_nan : ∀ (l : List PyFloat) (a : PyFloat), PyFloat.nan ∈ l →
    l.foldl PyFloat.add a = .nan := by
  intro l
  induction l with
  | nil => intro a h; exact absurd h (List.not_mem_nil _)
  | cons x xs ih =>
    intro a h
    rcases List.mem_cons.mp h with h | h
    · subst h
      simp only [List.foldl_cons, PyFloat.add_nan, foldl_add_nan]
    · simp only [List.foldl_cons]
      exact ih (PyFloat.add a x) h

theorem foldl_add_all_finite : ∀ (l : List PyFloat) (a : ℚ),
    (∀ x ∈ l, ∃ q, x = PyFloat.finite q) →
    l.foldl PyFloat.add (.finite a) = .finite (a + (l.map PyFloat.toQ).sum) := by
  intro l
  induction l with
  | nil => intro a _; simp
  | cons x xs ih =>
    intro a h
    obtain ⟨q, hq⟩ := h x (List.mem_cons_self x xs)
    subst hq
    simp only [List.foldl_cons, PyFloat.add, List.map_cons, List.sum_cons, PyFloat.toQ]
    rw [ih (a + q) (fun y hy => h y (List.mem_cons_of_mem _ hy))]
    congr 1
    ring

theorem itemTotalContribution_eq (it : PyVal) {q : ℚ} {n : Int}
    (hp : itemPriceOf it = .finite q) (hq : itemQtyOf it = .ok (some n)) :
    itemTotalContribution it = .finite (q * n) := by
  cases it with
  | vDict kvs =>
    unfold itemPriceOf at hp
    unfold itemQtyOf at hq
    simp only at hp hq
    unfold itemTotalContribution
    simp only [dictGet, Except.bind, bind, hq, hp, pure, Except.pure, qtyToPyFloat, PyFloat.mul]
  | vNone =>
    unfold itemPriceOf at hp
    unfold itemQtyOf at hq
    simp only [parse_price, PyFloat.finite.injEq, parse_quantity, Except.ok.injEq,
      Option.some.injEq] at hp hq
    subst hp; subst hq
    simp [itemTotalContribution, dictGet, Except.bind, bind, parse_quantity, parse_price,
      qtyToPyFloat, PyFloat.mul]
  | vInt m =>
    unfold itemPriceOf at hp
    unfold itemQtyOf at hq
    simp only [parse_price, PyFloat.finite.injEq, parse_quantity, Except.ok.injEq,
      Option.some.injEq] at hp hq
    subst hp; subst hq
    simp [itemTotalContribution, dictGet, Except.bind, bind, parse_quantity, parse_price,
      qtyToPyFloat, PyFloat.mul]
  | vFloat f =>
    unfold itemPriceOf at hp
    unfold itemQtyOf at hq
    simp only [parse_price, PyFloat.finite.injEq, parse_quantity, Except.ok.injEq,
      Option.some.injEq] at hp hq
    subst hp; subst hq
    simp [itemTotalContribution, dictGet, Except.bind, bind, parse_quantity, parse_price,
      qtyToPyFloat, PyFloat.mul]
  | vStr s =>
    unfold itemPriceOf at hp
    unfold itemQtyOf at hq
    simp only [parse_price, PyFloat.finite.injEq, parse_quantity, Except.ok.injEq,
      Option.some.injEq] at hp hq
    subst hp; subst hq
    simp [itemTotalContribution, dictGet, Except.bind, bind, parse_quantity, parse_price,
      qtyToPyFloat, PyFloat.mul]
  | vList xs =>
    unfold itemPriceOf at hp
    unfold itemQtyOf at hq
    simp only [parse_price, PyFloat.finite.injEq, parse_quantity, Except.ok.injEq,
      Option.some.injEq] at hp hq
    subst hp; subst hq
    simp [itemTotalContribution, dictGet, Except.bind, bind, parse_quantity, parse_price,
      qtyToPyFloat, PyFloat.mul]
  | vOther =>
    unfold itemPriceOf at hp
    unfold itemQtyOf at hq
    simp only [parse_price, PyFloat.finite.injEq, parse_quantity, Except.ok.injEq,
      Option.some.injEq] at hp hq
    subst hp; subst hq
    simp [itemTotalContribution, dictGet, Except.bind, bind, parse_quantity, parse_price,
      qtyToPyFloat, PyFloat.mul]

theorem head_dropWhile_not {p : Char → Bool} :
    ∀ (l : List Char) (d : Char), (l.dropWhile p).head? = some d → p d = false := by
  intro l
  induction l with
  | nil => intro d h; simp [List.dropWhile] at h
  | cons c cs ih =>
    intro d h
    by_cases hc : p c = true
    · rw [List.dropWhile_cons_of_pos hc] at h
      exact ih d h
    · rw [List.dropWhile_cons_of_neg hc] at h
      simp only [List.head?_cons, Option.some.injEq] at h
      subst h
      exact eq_false_of_ne_true hc

theorem firstDigitRun_eq_none_iff : ∀ cs : List Char,
    firstDigitRun cs = none ↔ ∀ c ∈ cs, c.isDigit = false := by
  intro cs
  induction cs with
  | nil => simp [firstDigitRun]
  | cons c rest ih =>
    unfold firstDigitRun
    by_cases hc : c.isDigit = true
    · simp [hc]
    · simp only [eq_false_of_ne_true hc, Bool.false_eq_true, if_false, ih,
        List.mem_cons]
      constructor
      · intro h d hd
        rcases hd with hd | hd
        · subst hd; exact eq_false_of_ne_true hc
        · exact h d hd
      · intro h d hd
        exact h d (Or.inr hd)

theorem firstDigitRun_some_decomp : ∀ (cs : List Char) (v : Nat),
    firstDigitRun cs = some v →
    ∃ pre run post, cs = pre ++ run ++ post ∧ (∀ c ∈ pre, c.isDigit = false) ∧
      run ≠ [] ∧ (∀ c ∈ run, c.isDigit = true) ∧
      (∀ d, post.head? = some d → d.isDigit = false) ∧ v = digitsVal run := by
  intro cs
  induction cs with
  | nil => intro v h; simp [firstDigitRun] at h
  | cons c rest ih =>
    intro v h
    unfold firstDigitRun at h
    by_cases hc : c.isDigit = true
    · rw [if_pos hc] at h
      simp only [Option.some.injEq] at h
      refine ⟨[], c :: rest.takeWhile Char.isDigit, rest.dropWhile Char.isDigit, ?_, ?_, ?_, ?_, ?_, ?_⟩
      · simp [List.takeWhile_append_dropWhile]
      · intro d hd; exact absurd hd (List.not_mem_nil d)
      · simp
      · intro d hd
        rcases List.mem_cons.mp hd with hd | hd
        · subst hd; exact hc
        · exact List.mem_takeWhile_imp hd
      · intro d hd; exact head_dropWhile_not rest d hd
      · exact h.symm
    · rw [if_neg hc] at h
      obtain ⟨pre, run, post, hcs, hpre, hrun, hdig, hpost, hv⟩ := ih v h
      refine ⟨c :: pre, run, post, ?_, ?_, hrun, hdig, hpost, hv⟩
      · simp [hcs]
      · intro d hd
        rcases List.mem_cons.mp hd with hd | hd
        · subst hd; exact eq_false_of_ne_true hc
        · exact hpre d hd

/-- C4 (amended): `extract_int_from_str` returns an int unchanged,
truncates a finite float toward zero, returns the integer formed by the
first contiguous digit run of a string (`None` when the string has no
digit), and returns `None` for all other values -- but it does raise
(`ValueError`/`OverflowError` from `int(value)`) when the value is a float
NaN or infinity, so the claimed absence of exceptions holds only away from
non-finite floats. -/
theorem claim_C4_amended :
    (∀ n : Int, extract_int_from_str (.vInt n) = .ok (some n)) ∧
    (∀ q : ℚ, extract_int_from_str (.vFloat (.finite q)) =
      .ok (some (if 0 ≤ q then ⌊q⌋ else ⌈q⌉))) ∧
    (extract_int_from_str (.vFloat .nan) = .error () ∧
      ∀ b, extract_int_from_str (.vFloat (.inf b)) = .error ()) ∧
    (∀ s : String, extract_int_from_str (.vStr s) = .ok none ↔
      ∀ c ∈ s.data, c.isDigit = false) ∧
    (∀ (s : String) (v : Int), extract_int_from_str (.vStr s) = .ok (some v) →
      ∃ pre run post, s.data = pre ++ run ++ post ∧ (∀ c ∈ pre, c.isDigit = false) ∧
        run ≠ [] ∧ (∀ c ∈ run, c.isDigit = true) ∧
        (∀ d, post.head? = some d → d.isDigit = false) ∧ v = (digitsVal run : Int)) ∧
    (extract_int_from_str .vNone = .ok none ∧ extract_int_from_str .vOther = .ok none ∧
      (∀ xs, extract_int_from_str (.vList xs) = .ok none) ∧
      (∀ kvs, extract_int_from_str (.vDict kvs) = .ok none)) := by
  refine ⟨fun n => rfl, fun q => rfl, ⟨rfl, fun b => rfl⟩, ?_, ?_, rfl, rfl,
    fun xs => rfl, fun kvs => rfl⟩
  · intro s
    simp only [extract_int_from_str, Except.ok.injEq, Option.map_eq_none']
    exact firstDigitRun_eq_none_iff s.data
  · intro s v h
    simp only [extract_int_from_str, Except.ok.injEq] at h
    obtain ⟨m, hm, hv⟩ := Option.map_eq_some'.mp h
    obtain ⟨pre, run, post, hcs, hpre, hne, hdig, hpost, hval⟩ :=
      firstDigitRun_some_decomp s.data m hm
    exact ⟨pre, run, post, hcs, hpre, hne, hdig, hpost, by rw [← hv, hval]; rfl⟩

/-- C4 counterexample: the claim as stated says `extract_identifier` never
raises, but on the float `NaN` the source calls `int(value)`, which raises
`ValueError`; the model returns the error outcome, not any value. -/
theorem claim_C4_counterexample :
    extract_int_from_str (.vFloat .nan) = .error () ∧
      ∀ r : Option Int, extract_int_from_str (.vFloat .nan) ≠ .ok r :=
  ⟨rfl, fun _ h => Except.noConfusion h⟩

/-- C4 witness: the digit-run decomposition at the concrete string
`ab12c3`, whose extracted identifier is 12. -/
theorem claim_C4_amended_witness :
    ∃ pre run post, "ab12c3".data = pre ++ run ++ post ∧
      (∀ c ∈ pre, c.isDigit = false) ∧ run ≠ [] ∧ (∀ c ∈ run, c.isDigit = true) ∧
      (∀ d, post.head? = some d → d.isDigit = false) ∧ (12 : Int) = (digitsVal run : Int) :=
  claim_C4_amended.2.2.2.2.1 "ab12c3" 12 (by with_unfolding_all rfl)

/-- C5 (confirmed): `parse_price` agrees with the contract spelled out by
the specification on every value: `None` and unparsable input map to the
missing marker NaN, numeric input keeps its float value, text input is
cleaned of `$`/`,` and whitespace, a sentinel word is an explicit zero,
and other text goes through the float parser; in particular `FREE` gives
the explicit zero while `None` gives missing, and the two differ. -/
theorem claim_C5 :
    (∀ v, parse_price v = parsePriceSpec v) ∧
    parse_price (.vStr "FREE") = .finite 0 ∧ parse_price .vNone = .nan ∧
    PyFloat.finite 0 ≠ PyFloat.nan := by
  refine ⟨?_, by with_unfolding_all rfl, rfl, fun h => PyFloat.noConfusion h⟩
  intro v
  cases v <;> simp [parse_price, parsePriceSpec]
  case vStr s =>
    rw [if_congr (mem_sentinelWords _) rfl rfl]
    split
    · rfl
    · simp [Option.getD]
      split <;> simp_all

/-- C6 (amended): `parse_quantity` has the integer-valued contract of
`parse_price` except that its text cleaning only trims whitespace and
uppercases -- it does NOT strip the currency symbol or thousands
separators -- and a non-finite float input raises instead of coercing. -/
theorem claim_C6_amended :
    (∀ v, parse_quantity v = parseQuantityAmended v) ∧
    parse_quantity (.vStr "free") = .ok (some 0) ∧
    parse_quantity (.vStr " 12 ") = .ok (some 12) ∧
    parse_quantity (.vStr "x7") = .ok none ∧
    parse_quantity .vNone = .ok none := by
  refine ⟨?_, by with_unfolding_all rfl, by with_unfolding_all rfl,
    by with_unfolding_all rfl, rfl⟩
  intro v
  cases v <;> simp [parse_quantity, parseQuantityAmended, ratTrunc]
  case vFloat f => cases f <;> simp
  case vStr s =>
    rw [if_congr (mem_sentinelWords _) rfl rfl]

/-- C6 counterexample: the claim says quantity text is cleaned the same
way as price text (thousands separators stripped), so `"1,000"` would
coerce to 1000; the source `parse_quantity` does not strip `,` and the
`int(...)` call fails, so the result is the missing marker.  The claim
also says numeric input yields its integer value, but a float NaN raises. -/
theorem claim_C6_counterexample :
    parse_quantity (.vStr "1,000") = .ok none ∧
    parseQuantityClaimed (.vStr "1,000") = .ok (some 1000) ∧
    (Except.ok none : Except Unit (Option Int)) ≠ .ok (some 1000) ∧
    parse_quantity (.vFloat .nan) = .error () ∧
    parseQuantityClaimed (.vFloat .nan) = .ok none := by
  refine ⟨by with_unfolding_all rfl, by with_unfolding_all rfl, ?_, rfl, rfl⟩
  intro h
  simp at h

/-- C1 (amended): the order total treats only items that RAISE during
coercion (non-dict items, non-finite float quantities) as zero
contributions.  An item whose price or quantity merely coerces to the
missing marker contributes NaN, and one such item makes the whole
`total_order_value` NaN (so every percentage of the order becomes null);
when every item's price and quantity coerce to numbers, the total equals
the claimed sum of `parse_price(price) * parse_quantity(quantity)`. -/
theorem claim_C1_amended :
    (∀ items : List PyVal,
      (∀ it ∈ items, (∃ q, itemPriceOf it = .finite q) ∧ (∃ n, itemQtyOf it = .ok (some n))) →
      totalOrderValue items = .finite (claimedTotalOrderValue items)) ∧
    (∀ (items : List PyVal) (it : PyVal), it ∈ items → itemTotalContribution it = .nan →
      totalOrderValue items = .nan) := by
  constructor
  · intro items h
    unfold totalOrderValue PyFloat.sum
    have hfin : ∀ x ∈ items.map itemTotalContribution, ∃ q, x = PyFloat.finite q := by
      intro x hx
      obtain ⟨it, hit, hx2⟩ := List.mem_map.mp hx
      obtain ⟨⟨q, hp⟩, ⟨n, hq⟩⟩ := h it hit
      exact ⟨q * n, by rw [← hx2]; exact itemTotalContribution_eq it hp hq⟩
    rw [foldl_add_all_finite _ 0 hfin]
    congr 1
    rw [zero_add, List.map_map]
    unfold claimedTotalOrderValue
    apply congrArg List.sum
    apply List.map_congr_left
    intro it hit
    obtain ⟨⟨q, hp⟩, ⟨n, hq⟩⟩ := h it hit
    simp only [Function.comp, itemTotalContribution_eq it hp hq, PyFloat.toQ, hp, hq]
  · intro items it hmem hnan
    unfold totalOrderValue PyFloat.sum
    exact foldl_add_mem_nan _ _ (List.mem_map.mpr ⟨it, hmem, hnan⟩)

/-- an item with an explicit `None` price and a valid quantity: its price
coercion fails (missing), without raising. -/
def c1item1 : PyVal := .vDict [("price", .vNone), ("quantity", .vInt 1)]

/-- an item with a valid price `"10"` and quantity 2. -/
def c1item2 : PyVal := .vDict [("price", .vStr "10"), ("quantity", .vInt 2)]

/-- a fully valid item used to exercise the finite-total case. -/
def c1item3 : PyVal := .vDict [("price", .vStr "5"), ("quantity", .vInt 2)]

/-- C1 counterexample: for an order with one item whose price is `None`
(coercion fails, claimed contribution zero) and one valid item worth 20,
the claimed total is 20 but the source computes NaN: the missing marker
propagates through `price * quantity` and `sum(...)` without being caught
by the exception handler, so the total is contaminated. -/
theorem claim_C1_counterexample :
    totalOrderValue [c1item1, c1item2] = .nan ∧
    claimedTotalOrderValue [c1item1, c1item2] = 20 ∧
    PyFloat.nan ≠ .finite (claimedTotalOrderValue [c1item1, c1item2]) := by
  refine ⟨by with_unfolding_all rfl, by with_unfolding_all decide, fun h => PyFloat.noConfusion h⟩

/-- C1 witness: the amended total at concrete orders: an all-valid order
has the claimed finite total, and the NaN-contaminated order is NaN. -/
theorem claim_C1_amended_witness :
    totalOrderValue [c1item3] = .finite (claimedTotalOrderValue [c1item3]) ∧
    totalOrderValue [c1item1, c1item2] = .nan := by
  constructor
  · apply claim_C1_amended.1 [c1item3]
    intro it hit
    rcases List.mem_singleton.mp hit with rfl
    exact ⟨⟨5, by with_unfolding_all rfl⟩, ⟨2, by with_unfolding_all rfl⟩⟩
  · exact claim_C1_amended.2 [c1item1, c1item2] c1item1 (List.mem_cons_self _ _)
      (by with_unfolding_all rfl)

/-- a source customer with no `id` key but a list of two orders: it is
skipped at the customer level, yet its orders count toward the report. -/
def custNoId : PyVal := .vDict [("orders", .vList [.vDict [], .vDict []])]

/-- C3 (amended): the report total of orders is the sum of order-list
lengths over ALL source customers whose `orders` field is a list (absent
treated as empty) -- including customers skipped at the customer level for
a missing id or a missing name/registration date; only a non-list `orders`
field (or a non-dict entry, which makes the report raise) keeps a customer
out of the count. -/
theorem claim_C3_amended : ∀ customers : List PyVal,
    (∀ c ∈ customers, ∃ kvs, c = .vDict kvs) →
    reportTotalOrders customers = .ok ((customers.map orderListLen).sum) := by
  intro customers h
  induction customers with
  | nil => rfl
  | cons c rest ih =>
    obtain ⟨kvs, hk⟩ := h c (List.mem_cons_self c rest)
    subst hk
    unfold reportTotalOrders
    have hg : dictGet (.vDict kvs) "orders" (.vList []) =
        .ok ((dictLookup kvs "orders").getD (.vList [])) := rfl
    simp only [hg, ih (fun x hx => h x (List.mem_cons_of_mem _ hx))]
    simp only [List.map_cons, List.sum_cons, Except.ok.injEq]
    rfl

/-- C3 counterexample: a customer with no id is skipped at the customer
level, and the claim says its orders are excluded from the report total;
the source still counts them: the report total for this single-customer
input is 2, not 0. -/
theorem claim_C3_counterexample :
    reportTotalOrders [custNoId] = .ok 2 ∧
    claimedTotalOrders [custNoId] = 0 ∧
    (Except.ok 2 : Except Unit Nat) ≠ .ok (claimedTotalOrders [custNoId]) := by
  refine ⟨by with_unfolding_all rfl, by with_unfolding_all rfl, ?_⟩
  intro h
  rw [show claimedTotalOrders [custNoId] = 0 from by with_unfolding_all rfl] at h
  simp at h

/-- C3 witness: the amended report total evaluated on the concrete
id-less customer: its two orders are counted. -/
theorem claim_C3_amended_witness :
    reportTotalOrders [custNoId] = .ok (([custNoId].map orderListLen).sum) ∧
    ([custNoId].map orderListLen).sum = 2 := by
  constructor
  · apply claim_C3_amended [custNoId]
    intro c hc
    rcases List.mem_singleton.mp hc with rfl
    exact ⟨_, rfl⟩
  · with_unfolding_all rfl

/-- C7 (confirmed): for a successfully parsed date, `validate_date`
rejects to missing exactly the dates strictly after `now` or with year
before 1900; and a customer whose registration date parses to a date in
the future is NOT skipped -- the customer is processed normally and every
row it produces carries a null registration date. -/
theorem claim_C7 :
    (∀ (d now : Timestamp), validate_date (some d) now = none ↔
      (tsLt now d ∨ d.year < 1900)) ∧
    (∀ (vips : List Int) (parseDate : PyVal → Option Timestamp) (now : Timestamp)
       (i : Int) (nm regRaw : PyVal) (os : List PyVal) (res : FlatResult) (d : Timestamp),
       parseDate regRaw = some d → tsLt now d → nm.isNone = false → regRaw.isNone = false →
       processCustomer vips parseDate now
         (.vDict [("id", .vInt i), ("name", nm), ("registration_date", regRaw),
                  ("orders", .vList os)]) = .ok res →
       res.skippedCustomers = [] ∧ ∀ r ∈ res.rows, r.registration_date = none) := by
  constructor
  · intro d now
    unfold validate_date
    by_cases h1 : tsLt now d
    · simp [h1]
    · by_cases h2 : d.year < 1900 <;> simp [h1, h2]
  · intro vips parseDate now i nm regRaw os res d hparse hfut hnm hreg hproc
    have hregnone : validate_date (parseDate regRaw) now = none := by
      simp only [hparse, validate_date]
      rw [if_pos hfut]
    unfold processCustomer at hproc
    have e1 : dictGet (PyVal.vDict [("id", .vInt i), ("name", nm),
        ("registration_date", regRaw), ("orders", .vList os)]) "id" .vNone =
        .ok (.vInt i) := rfl
    have e2 : dictGet (PyVal.vDict [("id", .vInt i), ("name", nm),
        ("registration_date", regRaw), ("orders", .vList os)]) "name" .vNone =
        .ok nm := rfl
    have e3 : dictGet (PyVal.vDict [("id", .vInt i), ("name", nm),
        ("registration_date", regRaw), ("orders", .vList os)]) "registration_date" .vNone =
        .ok regRaw := rfl
    have e4 : dictGet (PyVal.vDict [("id", .vInt i), ("name", nm),
        ("registration_date", regRaw), ("orders", .vList os)]) "orders" (.vList []) =
        .ok (.vList os) := rfl
    have hidn : (PyVal.vInt i).isNone = false := rfl
    simp only [e1, e2, e3, e4] at hproc
    simp only [hidn, hnm, hreg, Bool.false_eq_true, if_false, or_self] at hproc
    cases h6 : processOrders (.vInt i) nm (validate_date (parseDate regRaw) now)
        (vipMember (.vInt i) vips) parseDate now os with
    | error e => simp only [h6] at hproc; exact Except.noConfusion hproc
    | ok t =>
      obtain ⟨rs, sko, ski⟩ := t
      simp only [h6, Except.ok.injEq] at hproc
      subst hproc
      refine ⟨rfl, ?_⟩
      intro r hr
      have hh := (processOrders_rows h6 r hr).1
      rw [hregnone] at hh
      exact hh

/-- a date parser stub whose every date lands on year 2030 (the future
relative to the evaluation time 2025 used by the witnesses). -/
def pdFut : PyVal → Option Timestamp := fun _ => some ⟨2030, 0⟩

/-- a date parser stub whose every date lands on year 2020. -/
def pdW : PyVal → Option Timestamp := fun _ => some ⟨2020, 0⟩

/-- an order with one fully valid item, used by the C7 witness. -/
def oC7w : PyVal := .vDict [("order_id", .vInt 1), ("order_date", .vStr "d"),
  ("items", .vList [.vDict [("item_id", .vInt 1), ("product_name", .vStr "W"),
    ("price", .vStr "5"), ("quantity", .vInt 2)]])]

/-- the single row the C7 witness customer produces: registration date
null (rejected future date), customer not skipped. -/
def rowC7w : Row :=
  { customer_id := 1, customer_name := "A", registration_date := none,
    is_vip := false, order_id := 1, order_date := none,
    product_id := some 1, product_name := some "W", category := some "Misc",
    unit_price := .finite 5, item_quantity := some 2,
    total_item_price := .finite 10, total_order_value_percentage := .finite 100 }

/-- C7 witness: with every date parsing to year 2030 and `now` in 2025,
the concrete customer is processed without a customer-level skip, its one
row has a null registration date, and the date sanitizer rejects the
future date. -/
theorem claim_C7_witness :
    (FlatResult.mk [rowC7w] [] [] []).skippedCustomers = [] ∧
    rowC7w.registration_date = none ∧
    validate_date (some ⟨2030, 0⟩) ⟨2025, 0⟩ = none := by
  have h := claim_C7.2 [] pdFut ⟨2025, 0⟩ 1 (.vStr "A") (.vStr "r") [oC7w]
    (FlatResult.mk [rowC7w] [] [] []) ⟨2030, 0⟩ rfl (by decide) rfl rfl
    (by with_unfolding_all rfl)
  exact ⟨h.1, h.2 rowC7w (List.mem_singleton.mpr rfl),
    (claim_C7.1 ⟨2030, 0⟩ ⟨2025, 0⟩).mpr (Or.inl (by decide))⟩

/-- C2 (amended): every non-placeholder output row satisfies
`total_item_price = round(p * item_quantity, 2)` where `p` is the
pre-rounding parsed unit price; the claimed identity
`total_item_price = round(unit_price * item_quantity, 2)` over the
EMITTED (rounded) `unit_price` holds exactly when `p` is already exact to
two decimals, and fails otherwise because the source multiplies before
rounding. -/
theorem claim_C2_amended
    (vips : List Int) (parseDate : PyVal → Option Timestamp) (now : Timestamp)
    (customers : List PyVal) (res : FlatResult) (r : Row)
    (h : flatten_data vips parseDate now customers = .ok res)
    (hr : r ∈ res.rows) (hp : r.product_id ≠ none) :
    ∃ p n, r.item_quantity = some n ∧ r.unit_price = pyRound2 p ∧
      r.total_item_price = pyRound2 (PyFloat.mul p (.finite n)) ∧
      (pyRound2 p = p →
        r.total_item_price = pyRound2 (PyFloat.mul r.unit_price (.finite n))) := by
  rcases flatten_rows_shape h r hr with hnone | ⟨p, n, hq, hu, ht⟩
  · exact absurd hnone hp
  · refine ⟨p, n, hq, hu, ht, ?_⟩
    intro hfix
    rw [hu, hfix]
    exact ht

/-- a customer whose single item has price `"10.004"` (three decimals)
and quantity 3, exhibiting the rounding divergence. -/
def custC2 : PyVal := .vDict
  [("id", .vInt 1), ("name", .vStr "A"), ("registration_date", .vStr "r"),
   ("orders", .vList [.vDict
     [("order_id", .vInt 1), ("order_date", .vStr "d"),
      ("items", .vList
        [.vDict [("item_id", .vInt 1), ("product_name", .vStr "W"),
                 ("price", .vStr "10.004"), ("quantity", .vInt 3)]])]])]

/-- C2 counterexample: for the item priced `10.004` with quantity 3 the
emitted row has `total_item_price = round(10.004 * 3, 2) = 30.01`, while
the claimed formula over the emitted fields gives
`round(round(10.004, 2) * 3, 2) = round(10.0 * 3, 2) = 30.0`; the two
differ, so the claim fails on this output table. -/
theorem claim_C2_counterexample :
    (resultRows (flatten_data [] pdW ⟨2025, 0⟩ [custC2])).map
      (fun r => (r.total_item_price,
        pyRound2 (PyFloat.mul r.unit_price (qtyToPyFloat r.item_quantity))))
      = [(.finite (3001/100), .finite 30)] ∧
    PyFloat.finite (3001/100) ≠ .finite 30 := by
  constructor
  · set_option maxRecDepth 4000 in with_unfolding_all rfl
  · intro h
    have : (3001 : ℚ)/100 = 30 := PyFloat.finite.inj h
    norm_num at this

/-- a customer whose single item has the two-decimal price `"10.00"` and
quantity 2, used by the C2 witness. -/
def custC2w : PyVal := .vDict
  [("id", .vInt 1), ("name", .vStr "A"), ("registration_date", .vStr "r"),
   ("orders", .vList [.vDict
     [("order_id", .vInt 1), ("order_date", .vStr "d"),
      ("items", .vList
        [.vDict [("item_id", .vInt 1), ("product_name", .vStr "W"),
                 ("price", .vStr "10.00"), ("quantity", .vInt 2)]])]])]

/-- the row the C2 witness customer produces. -/
def rowC2w : Row :=
  { customer_id := 1, customer_name := "A", registration_date := some ⟨2020, 0⟩,
    is_vip := false, order_id := 1, order_date := some ⟨2020, 0⟩,
    product_id := some 1, product_name := some "W", category := some "Misc",
    unit_price := .finite 10, item_quantity := some 2,
    total_item_price := .finite 20, total_order_value_percentage := .finite 100 }

/-- C2 witness: the amended property at the concrete two-decimal-price
row. -/
theorem claim_C2_amended_witness :
    ∃ p n, rowC2w.item_quantity = some n ∧ rowC2w.unit_price = pyRound2 p ∧
      rowC2w.total_item_price = pyRound2 (PyFloat.mul p (.finite n)) ∧
      (pyRound2 p = p →
        rowC2w.total_item_price = pyRound2 (PyFloat.mul rowC2w.unit_price (.finite n))) :=
  claim_C2_amended [] pdW ⟨2025, 0⟩ [custC2w] (FlatResult.mk [rowC2w] [] [] []) rowC2w
    (by set_option maxRecDepth 4000 in with_unfolding_all rfl)
    (List.mem_singleton.mpr rfl) (fun h => Option.noConfusion h)

/-- C9 (confirmed): for a surviving order (resolvable order id, raw date
present) of a customer whose raw id is `int(...)`-coercible, an empty
coerced items list (including the malformed-non-list case folded into
`itemsOf`) produces exactly the one placeholder row with all item columns
null, and no skip records; a non-empty coerced items list never produces a
placeholder row, each item yields exactly one row or one item skip, and if
every item is skipped the order contributes zero rows. -/
theorem claim_C9
    (cid cname : PyVal) (reg : Option Timestamp) (vip : Bool)
    (parseDate : PyVal → Option Timestamp) (now : Timestamp) (order : PyVal)
    (rs : List Row) (sko : List SkipOrder) (ski : List SkipItem)
    (rawOid : PyVal) (oid : Int) (od : PyVal) (ci : Int)
    (h1 : dictGet order "order_id" .vNone = .ok rawOid)
    (h2 : extract_int_from_str rawOid = .ok (some oid))
    (h3 : dictGet order "order_date" .vNone = .ok od)
    (h4 : od.isNone = false)
    (h5 : pyToInt cid = .ok ci)
    (h : processOrder cid cname reg vip parseDate now order = .ok (rs, sko, ski)) :
    (itemsOf order = [] →
       rs = [placeholderRow ci (pyToStr cname) reg vip oid (validate_date (parseDate od) now)] ∧
       sko = [] ∧ ski = []) ∧
    (itemsOf order ≠ [] →
       (∀ r ∈ rs, r.product_id ≠ none) ∧ rs.length + ski.length = (itemsOf order).length ∧
       (ski.length = (itemsOf order).length → rs = [])) := by
  obtain ⟨kvs, hk⟩ := dictGet_ok_isDict h1
  subst hk
  unfold processOrder at h
  simp only [h1, h2, h3, h4] at h
  have hitems : dictGet (PyVal.vDict kvs) "items" (.vList []) =
      .ok ((dictLookup kvs "items").getD (.vList [])) := rfl
  simp only [hitems, items_coerce_eq kvs] at h
  cases hIt : itemsOf (.vDict kvs) with
  | nil =>
    simp only [hIt, h5, Except.ok.injEq, Prod.mk.injEq] at h
    obtain ⟨ha, hb, hc⟩ := h
    constructor
    · intro _
      exact ⟨ha.symm, hb.symm, hc.symm⟩
    · intro hne
      exact absurd rfl hne
  | cons it rest =>
    simp only [hIt] at h
    cases h8 : processItems cid cname reg vip oid (validate_date (parseDate od) now)
        (totalOrderValue (it :: rest)) (it :: rest) with
    | error e => simp only [h8] at h; exact Except.noConfusion h
    | ok pr =>
      obtain ⟨rs2, sks2⟩ := pr
      simp only [h8, Except.ok.injEq, Prod.mk.injEq] at h
      obtain ⟨ha, hb, hc⟩ := h
      subst ha; subst hb; subst hc
      constructor
      · intro hemp; exact absurd hemp (by simp)
      · intro _
        obtain ⟨hm, hl⟩ := processItems_ok h8
        refine ⟨?_, hl, ?_⟩
        · intro r hr
          obtain ⟨itx, hitx⟩ := hm r hr
          exact (processItem_ok_inl hitx).2.1
        · intro hall
          have hz : rs2.length = 0 := by omega
          exact List.eq_nil_of_length_eq_zero hz

/-- a surviving order with an empty items list, used by the C9 witness. -/
def oC9 : PyVal := .vDict [("order_id", .vInt 3), ("order_date", .vStr "d"),
  ("items", .vList [])]

/-- the placeholder row of the C9 witness order, written out field by
field: all item-level columns are null/NaN. -/
def phC9 : Row :=
  { customer_id := 1, customer_name := "A", registration_date := some ⟨2020, 0⟩,
    is_vip := false, order_id := 3, order_date := some ⟨2020, 0⟩,
    product_id := none, product_name := none, category := none,
    unit_price := .nan, item_quantity := none,
    total_item_price := .nan, total_order_value_percentage := .nan }

/-- C9 witness: the concrete zero-item order emits exactly the one
placeholder row and no skip records. -/
theorem claim_C9_witness :
    [phC9] = [placeholderRow 1 "A" (some ⟨2020, 0⟩) false 3
      (validate_date (pdW (.vStr "d")) ⟨2025, 0⟩)] ∧
    ([] : List SkipOrder) = [] ∧ ([] : List SkipItem) = [] :=
  (claim_C9 (.vInt 1) (.vStr "A") (some ⟨2020, 0⟩) false pdW ⟨2025, 0⟩ oC9
    [phC9] [] [] (.vInt 3) 3 (.vStr "d") 1 rfl rfl rfl rfl rfl
    (by with_unfolding_all rfl)).1 rfl

/-- C10 (confirmed): the final table is sorted by the composite key
`(customer_id, order_id, product_id)` ascending with null product ids
ranking last; consequently, whenever two rows share customer and order
ids and an earlier row is a placeholder (null product id), every later
row of that pair is also a placeholder -- a placeholder can never precede
a sibling row with a concrete product id. -/
theorem claim_C10
    (vips : List Int) (parseDate : PyVal → Option Timestamp) (now : Timestamp)
    (customers : List PyVal) (res : FlatResult)
    (h : flatten_data vips parseDate now customers = .ok res) :
    res.rows.Pairwise (fun a b => rowLe a b = true) ∧
    ∀ i j ri rj, i < j → res.rows.get? i = some ri → res.rows.get? j = some rj →
      ri.customer_id = rj.customer_id → ri.order_id = rj.order_id →
      ri.product_id = none → rj.product_id = none := by
  have hpw : res.rows.Pairwise (fun a b => rowLe a b = true) := by
    unfold flatten_data at h
    cases h1 : processCustomers vips parseDate now customers with
    | error e => simp only [h1] at h; exact Except.noConfusion h
    | ok res0 =>
      simp only [h1, Except.ok.injEq] at h
      subst h
      exact pairwise_sortRows res0.rows
  refine ⟨hpw, ?_⟩
  intro i j ri rj hij hgi hgj hcid hoid hpid
  obtain ⟨hli, hgi2⟩ := List.get?_eq_some.mp hgi
  obtain ⟨hlj, hgj2⟩ := List.get?_eq_some.mp hgj
  have hrel : rowLe ri rj = true := by
    have hg := List.pairwise_iff_get.mp hpw ⟨i, hli⟩ ⟨j, hlj⟩ hij
    rwa [hgi2, hgj2] at hg
  cases hrj : rj.product_id with
  | none => rfl
  | some m =>
    exfalso
    simp only [rowLe, keyLe, rowKey, hcid, hoid, hpid, hrj, pidRank, pidVal,
      Bool.or_eq_true, Bool.and_eq_true, decide_eq_true_eq] at hrel
    omega

/-- a zero-item order whose raw id `A7` digit-extracts to 7. -/
def oA7 : PyVal := .vDict [("order_id", .vStr "A7"), ("order_date", .vStr "d"),
  ("items", .vList [])]

/-- a second zero-item order whose raw id `B7` also digit-extracts to 7. -/
def oB7 : PyVal := .vDict [("order_id", .vStr "B7"), ("order_date", .vStr "d"),
  ("items", .vList [])]

/-- one customer carrying the two colliding orders `A7`/`B7`. -/
def custC10 : PyVal := .vDict [("id", .vInt 1), ("name", .vStr "A"),
  ("registration_date", .vStr "r"), ("orders", .vList [oA7, oB7])]

/-- the placeholder row both C10 orders produce (customer 1, order 7). -/
def phC10 : Row :=
  { customer_id := 1, customer_name := "A", registration_date := some ⟨2020, 0⟩,
    is_vip := false, order_id := 7, order_date := some ⟨2020, 0⟩,
    product_id := none, product_name := none, category := none,
    unit_price := .nan, item_quantity := none,
    total_item_price := .nan, total_order_value_percentage := .nan }

/-- C10 witness: the concrete two-placeholder table is sorted and the
second of two key-sharing rows after a placeholder is a placeholder. -/
theorem claim_C10_witness :
    [phC10, phC10].Pairwise (fun a b => rowLe a b = true) ∧
    phC10.product_id = none := by
  have h := claim_C10 [] pdW ⟨2025, 0⟩ [custC10] (FlatResult.mk [phC10, phC10] [] [] [])
    (by set_option maxRecDepth 4000 in with_unfolding_all rfl)
  exact ⟨h.1, h.2 0 1 phC10 phC10 (by decide) rfl rfl rfl rfl rfl⟩

/-- the C8 failing input: a customer with one surviving order whose only
item lacks the `quantity` key. -/
def custC8 : PyVal := .vDict
  [("id", .vInt 1), ("name", .vStr "A"), ("registration_date", .vStr "r"),
   ("orders", .vList [.vDict
     [("order_id", .vInt 1), ("order_date", .vStr "d"),
      ("items", .vList
        [.vDict [("item_id", .vInt 1), ("product_name", .vStr "W"),
                 ("price", .vStr "5")]])]])]

/-- C8 (code bug): an item with no `quantity` key should be an item-level
skip ("a coercible quantity" is missing), but the emission loop calls
`parse_quantity(item.get('quantity', np.nan))`, and `parse_quantity`
reaches `int(np.nan)`, whose `ValueError` is uncaught there: the whole
`flatten_data` call aborts with an exception instead of recording an item
skip -- contradicting the intent visible in the same function (the
`pd.isna(item_quantity)` skip guard and the deliberate NaN default). -/
theorem claim_C8_code_evaluation :
    flatten_data [] pdW ⟨2025, 0⟩ [custC8] = .error () ∧
    ∀ res : FlatResult, flatten_data [] pdW ⟨2025, 0⟩ [custC8] ≠ .ok res := by
  refine ⟨by set_option maxRecDepth 4000 in with_unfolding_all rfl, ?_⟩
  intro res hres
  rw [show flatten_data [] pdW ⟨2025, 0⟩ [custC8] = .error () from
    by set_option maxRecDepth 4000 in with_unfolding_all rfl] at hres
  exact Except.noConfusion hres
